import Mathlib

/-!
Shallow embedding of the entity-management core of the project-management
agent (`src/project_management_agent/agent.py`, class `ProjectManagementAgent`).

The Python state dict `{user_name, projects, team_members}` becomes the
`AgentState` structure; each operation becomes a pure function from
`AgentState` (plus its arguments) to an `Outcome`, which carries the
structured result, the new state, and whether the operation called
`_update_state` (i.e. persisted through the session store).  `datetime.now()`
is passed in as the `today` parameter.  Python's `str.lower` and substring
`in` are modelled by an ASCII lower-casing map and an explicit character-list
substring scan.
-/

namespace PMA

/-- A task record, as built by `add_task`. -/
structure Task where
  name : String
  description : String
  assigned_to : String
  due_date : String
  priority : String
  status : String
  created_at : String
deriving DecidableEq, Repr

/-- A project record, as built by `add_project`. -/
structure Project where
  name : String
  description : String
  due_date : String
  tasks : List Task
  created_at : String
deriving DecidableEq, Repr

/-- A team-member record, as built by `add_team_member`. -/
structure TeamMember where
  name : String
  role : String
  email : String
  created_at : String
deriving DecidableEq, Repr

/-- The session state blob `{user_name, projects, team_members}`. -/
structure AgentState where
  user_name : String
  projects : List Project
  team_members : List TeamMember
deriving DecidableEq, Repr

/-- Result of one operation: the structured result dict, the state after the
call, and whether `_update_state` (the session-store write) was invoked. -/
structure Outcome (ρ : Type) where
  result : ρ
  state : AgentState
  persisted : Bool
deriving DecidableEq, Repr

/-! ## String matching: Python `needle in hay` and `str.lower` -/

/-- ASCII lower-casing of one character (Python `str.lower` on the ASCII
range used by the agent's data). -/
def lowerChar (c : Char) : Char :=
  if 65 ≤ c.toNat ∧ c.toNat ≤ 90 then Char.ofNat (c.toNat + 32) else c

/-- Python `s.lower()`. -/
def lowerString (s : String) : String :=
  ⟨s.data.map lowerChar⟩

/-- `startsWithList n h`: the character list `n` is a prefix of `h`. -/
def startsWithList : List Char → List Char → Bool
  | [], _ => true
  | _ :: _, [] => false
  | a :: as, b :: bs => a == b && startsWithList as bs

/-- `containsAux n h`: the character list `n` occurs contiguously in `h`. -/
def containsAux (needle : List Char) : List Char → Bool
  | [] => startsWithList needle []
  | c :: cs => startsWithList needle (c :: cs) || containsAux needle cs

/-- Python `needle in hay` for strings: substring containment. -/
def strContainsB (hay needle : String) : Bool :=
  containsAux needle.data hay.data

/-- The match test used by every name lookup in the agent:
`query.lower() in item_name.lower()`. -/
def nameMatches (query itemName : String) : Bool :=
  strContainsB (lowerString itemName) (lowerString query)

/-! ## Date validation: `datetime.strptime(due_date, "%Y-%m-%d")` -/

/-- Decimal value of a digit string. -/
def digitsToNat (cs : List Char) : Nat :=
  cs.foldl (fun a c => a * 10 + (c.toNat - 48)) 0

/-- Gregorian leap-year test (as in Python's `datetime`). -/
def isLeapYear (y : Nat) : Bool :=
  (y % 4 == 0 && y % 100 != 0) || (y % 400 == 0)

/-- Days in month `m` of year `y`. -/
def daysInMonth (y m : Nat) : Nat :=
  if m == 2 then (if isLeapYear y then 29 else 28)
  else if m == 4 || m == 6 || m == 9 || m == 11 then 30
  else 31

/-- Split a character list on a separator character. -/
def splitOnChar (sep : Char) : List Char → List (List Char)
  | [] => [[]]
  | c :: cs =>
    if c == sep then [] :: splitOnChar sep cs
    else
      match splitOnChar sep cs with
      | [] => [[c]]
      | g :: gs => (c :: g) :: gs

/-- Is `c` a decimal digit? -/
def isDigitChar (c : Char) : Bool :=
  48 ≤ c.toNat && c.toNat ≤ 57

/-- Model of `datetime.strptime(s, "%Y-%m-%d")` succeeding: a four-digit
year, a one/two-digit month in `[1,12]`, a one/two-digit day valid for the
month, separated by hyphens, consuming the whole string. -/
def parseDateYMD (s : String) : Bool :=
  match splitOnChar (Char.ofNat 45) s.data with
  | [ys, ms, ds] =>
    ys.length == 4 && ys.all isDigitChar &&
    (ms.length == 1 || ms.length == 2) && ms.all isDigitChar &&
    (ds.length == 1 || ds.length == 2) && ds.all isDigitChar &&
    (let y := digitsToNat ys
     let m := digitsToNat ms
     let d := digitsToNat ds
     1 ≤ y && 1 ≤ m && m ≤ 12 && 1 ≤ d && d ≤ daysInMonth y m)
  | _ => false

/-! ## List helpers mirroring in-place mutation of one element -/

/-- Replace element `i` of `l` by `f` of itself (Python's in-place
`l[i] = f(l[i])` / mutation of the object at index `i`). -/
def modifyAt {α : Type} : List α → Nat → (α → α) → List α
  | [], _, _ => []
  | x :: xs, 0, f => f x :: xs
  | x :: xs, Nat.succ j, f => x :: modifyAt xs j f

/-- First element of `l` satisfying `p` (the `for … if … break` scan). -/
def findFirst {α : Type} (p : α → Bool) : List α → Option α
  | [] => none
  | x :: xs => if p x then some x else findFirst p xs

/-- Apply `f` to the first element satisfying `p`, leave the rest alone
(in-place mutation of the object found by the `for … break` scan). -/
def updateFirst {α : Type} (p : α → Bool) (f : α → α) : List α → List α
  | [] => []
  | x :: xs => if p x then f x :: xs else x :: updateFirst p f xs

/-! ## Name resolution (`find_team_member_by_name` / `find_project_by_name`) -/

/-- Tri-state result of a name lookup, with the matched item(s) and their
1-based indices. -/
inductive FindResult (α : Type) where
  | not_found
  | found (index : Nat) (item : α)
  | multiple_matches (ms : List (Nat × α))
deriving DecidableEq, Repr

/-- The match-collection loop:
`for i, item in enumerate(collection): if query.lower() in name.lower():
matches.append({index: i+1, item})`, with `i0` the 0-based index of the
head of the remaining list. -/
def collectMatches {α : Type} (getName : α → String) (query : String) :
    List α → Nat → List (Nat × α)
  | [], _ => []
  | x :: xs, i =>
    if nameMatches query (getName x) then
      (i + 1, x) :: collectMatches getName query xs (i + 1)
    else
      collectMatches getName query xs (i + 1)

/-- The shared tail of both find operations: zero matches → `not_found`,
one → `found`, more → `multiple_matches`. -/
def findByName {α : Type} (getName : α → String) (collection : List α)
    (query : String) : FindResult α :=
  match collectMatches getName query collection 0 with
  | [] => .not_found
  | [m] => .found m.1 m.2
  | ms => .multiple_matches ms

/-- `find_team_member_by_name(name)`. -/
def find_team_member_by_name (s : AgentState) (name : String) :
    FindResult TeamMember :=
  findByName TeamMember.name s.team_members name

/-- `find_project_by_name(name)`. -/
def find_project_by_name (s : AgentState) (name : String) : FindResult Project :=
  findByName Project.name s.projects name

/-! ## Entity operations -/

/-- Result of `add_project`. -/
inductive AddProjectResult where
  | invalid_date (due_date : String)
  | ok (name : String) (due_date : String)
deriving DecidableEq, Repr

/-- `add_project(name, description=None, due_date=None)`.  Defaults are
applied first; then `datetime.strptime` validates `due_date` — but only
when `due_date` is truthy, so the empty string skips validation. -/
def add_project (s : AgentState) (name : String)
    (description due_date : Option String) (today : String) :
    Outcome AddProjectResult :=
  let description := description.getD "No description provided"
  let due_date := due_date.getD "2025-12-31"
  if due_date ≠ "" ∧ parseDateYMD due_date = false then
    ⟨.invalid_date due_date, s, false⟩
  else
    let newProject : Project :=
      { name, description, due_date, tasks := [], created_at := today }
    ⟨.ok name due_date, { s with projects := s.projects ++ [newProject] }, true⟩

/-- The task record built by `add_task` after filling defaults. -/
def mkTask (name : String)
    (assigned_to description due_date priority : Option String)
    (today : String) : Task :=
  { name,
    description := description.getD "No description provided",
    assigned_to := assigned_to.getD "Unassigned",
    due_date := due_date.getD "2025-12-31",
    priority := priority.getD "medium",
    status := "pending",
    created_at := today }

/-- Name of the project at 0-based index `i` (`projects[i]["name"]`). -/
def projectNameAt (l : List Project) (i : Nat) : String :=
  match l[i]? with
  | some p => p.name
  | none => ""

/-- Name of the team member at 0-based index `i`. -/
def memberNameAt (l : List TeamMember) (i : Nat) : String :=
  match l[i]? with
  | some m => m.name
  | none => ""

/-- Result of `add_task` (and of `add_task_by_project_name`, which either
fails resolution or returns `add_task`'s result unchanged). -/
inductive AddTaskResult where
  | invalid_index (project_index : Int) (count : Nat)
  | ok (task : String) (project : String)
  | project_not_found (project_name : String)
  | project_ambiguous (candidates : List (Nat × String))
deriving DecidableEq, Repr

/-- `add_task(project_index, name, ...)`: 1-based index, bounds-checked
(`zero_based < 0 or zero_based >= len(projects)`), then appends the new
task to the target project's `tasks`. -/
def add_task (s : AgentState) (project_index : Int) (name : String)
    (assigned_to description due_date priority : Option String)
    (today : String) : Outcome AddTaskResult :=
  let projects := s.projects
  let zero_based : Int := project_index - 1
  if zero_based < 0 ∨ (projects.length : Int) ≤ zero_based then
    ⟨.invalid_index project_index projects.length, s, false⟩
  else
    let i := zero_based.toNat
    let newTask := mkTask name assigned_to description due_date priority today
    let projects2 := modifyAt projects i (fun p => { p with tasks := p.tasks ++ [newTask] })
    ⟨.ok name (projectNameAt projects2 i), { s with projects := projects2 }, true⟩

/-- The team-member record after `update_team_member`'s partial update:
only the provided (`some`) fields are overwritten. -/
def updMember (m : TeamMember) (name role email : Option String) : TeamMember :=
  { m with
    name := name.getD m.name,
    role := role.getD m.role,
    email := email.getD m.email }

/-- Result of `update_team_member`. -/
inductive UpdateMemberResult where
  | invalid_index (index : Int) (count : Nat)
  | ok (name : String)
deriving DecidableEq, Repr

/-- `update_team_member(index, name=None, role=None, email=None)`. -/
def update_team_member (s : AgentState) (index : Int)
    (name role email : Option String) : Outcome UpdateMemberResult :=
  let team := s.team_members
  let zero_based : Int := index - 1
  if zero_based < 0 ∨ (team.length : Int) ≤ zero_based then
    ⟨.invalid_index index team.length, s, false⟩
  else
    let i := zero_based.toNat
    let team2 := modifyAt team i (fun m => updMember m name role email)
    ⟨.ok (memberNameAt team2 i), { s with team_members := team2 }, true⟩

/-- Result of `delete_team_member`. -/
inductive DeleteMemberResult where
  | invalid_index (index : Int) (count : Nat)
  | ok (name : String)
deriving DecidableEq, Repr

/-- `delete_team_member(index)`: bounds-checked `team_members.pop(index-1)`. -/
def delete_team_member (s : AgentState) (index : Int) :
    Outcome DeleteMemberResult :=
  let team := s.team_members
  let zero_based : Int := index - 1
  if zero_based < 0 ∨ (team.length : Int) ≤ zero_based then
    ⟨.invalid_index index team.length, s, false⟩
  else
    let i := zero_based.toNat
    ⟨.ok (memberNameAt team i), { s with team_members := team.eraseIdx i }, true⟩

/-- Result of `delete_project`. -/
inductive DeleteProjectResult where
  | invalid_index (index : Int) (count : Nat)
  | ok (name : String)
deriving DecidableEq, Repr

/-- `delete_project(index)`: bounds-checked `projects.pop(index-1)`. -/
def delete_project (s : AgentState) (index : Int) : Outcome DeleteProjectResult :=
  let projects := s.projects
  let zero_based : Int := index - 1
  if zero_based < 0 ∨ (projects.length : Int) ≤ zero_based then
    ⟨.invalid_index index projects.length, s, false⟩
  else
    let i := zero_based.toNat
    ⟨.ok (projectNameAt projects i), { s with projects := projects.eraseIdx i }, true⟩

/-- `add_task_by_project_name(project_name, task_name, ...)`: resolves the
project through `find_project_by_name`; errors (without touching state) on
`not_found` and `multiple_matches`, otherwise delegates to `add_task` with
the resolved 1-based index. -/
def add_task_by_project_name (s : AgentState) (project_name task_name : String)
    (assigned_to description due_date priority : Option String)
    (today : String) : Outcome AddTaskResult :=
  match find_project_by_name s project_name with
  | .not_found => ⟨.project_not_found project_name, s, false⟩
  | .multiple_matches ms =>
      ⟨.project_ambiguous (ms.map (fun m => (m.1, m.2.name))), s, false⟩
  | .found i _ =>
      add_task s (i : Int) task_name assigned_to description due_date priority today

/-- Result of `update_task_status`. -/
inductive UpdateTaskStatusResult where
  | project_not_found (project_name : String)
  | task_not_found (task_name : String) (project : String)
  | success (project task old_status new_status : String)
deriving DecidableEq, Repr

/-- `update_task_status(project_name, task_name, new_status)`: first
substring-matching project, then first substring-matching task inside it;
on success the task's `status` is overwritten with `new_status.lower()`
and the old and new values are reported. -/
def update_task_status (s : AgentState)
    (project_name task_name new_status : String) :
    Outcome UpdateTaskStatusResult :=
  match findFirst (fun p => nameMatches project_name p.name) s.projects with
  | none => ⟨.project_not_found project_name, s, false⟩
  | some p =>
    match findFirst (fun t => nameMatches task_name t.name) p.tasks with
    | none => ⟨.task_not_found task_name p.name, s, false⟩
    | some t =>
      let setStatus := fun (t : Task) => { t with status := lowerString new_status }
      let updProj := fun (p : Project) =>
        { p with tasks := updateFirst (fun t => nameMatches task_name t.name) setStatus p.tasks }
      let projects2 :=
        updateFirst (fun p => nameMatches project_name p.name) updProj s.projects
      ⟨.success p.name t.name t.status new_status,
        { s with projects := projects2 }, true⟩

/-- Result of `delete_tasks_by_name`. -/
inductive DeleteTasksResult where
  | no_projects
  | not_found (task_name : String)
  | success (task_name : String) (deleted_count : Nat)
      (affected_projects : List String)
deriving DecidableEq, Repr

/-- Does task `t` match the deletion query (`task_name.lower() in
task["name"].lower()`)? -/
def taskMatch (task_name : String) (t : Task) : Bool :=
  nameMatches task_name t.name

/-- `delete_tasks_by_name(task_name)`: empty projects → error; otherwise
every matching task is filtered out of every project, the total count and
the names of projects that lost a task are accumulated, the state is
re-persisted unconditionally, and a zero-deletion run reports `not_found`. -/
def delete_tasks_by_name (s : AgentState) (task_name : String) :
    Outcome DeleteTasksResult :=
  if s.projects = [] then
    ⟨.no_projects, s, false⟩
  else
    let deleted_count :=
      (s.projects.map (fun p => (p.tasks.filter (taskMatch task_name)).length)).sum
    let affected_projects :=
      (s.projects.filter (fun p => p.tasks.any (taskMatch task_name))).map Project.name
    let projects2 :=
      s.projects.map (fun p => { p with tasks := p.tasks.filter (fun t => !taskMatch task_name t) })
    let s2 := { s with projects := projects2 }
    if deleted_count = 0 then
      ⟨.not_found task_name, s2, true⟩
    else
      ⟨.success task_name deleted_count affected_projects, s2, true⟩

/-- Result of `remove_completed_tasks`. -/
inductive RemoveCompletedResult where
  | no_projects
  | no_tasks
  | success (removed_count : Nat) (affected_projects : List String)
deriving DecidableEq, Repr

/-- Is task `t` completed (`task.get("status", "pending") == "completed"`,
exact string equality)? -/
def isCompleted (t : Task) : Bool :=
  t.status == "completed"

/-- `remove_completed_tasks()`: empty projects → error; otherwise every
task whose `status` exactly equals `"completed"` is removed from every
project, the state is re-persisted unconditionally, and a zero-removal run
reports `no_tasks`. -/
def remove_completed_tasks (s : AgentState) : Outcome RemoveCompletedResult :=
  if s.projects = [] then
    ⟨.no_projects, s, false⟩
  else
    let removed_count :=
      (s.projects.map (fun p => (p.tasks.filter isCompleted).length)).sum
    let affected_projects :=
      (s.projects.filter (fun p => p.tasks.any isCompleted)).map Project.name
    let projects2 :=
      s.projects.map (fun p => { p with tasks := p.tasks.filter (fun t => !isCompleted t) })
    let s2 := { s with projects := projects2 }
    if removed_count = 0 then
      ⟨.no_tasks, s2, true⟩
    else
      ⟨.success removed_count affected_projects, s2, true⟩

/-! ## Concrete sample data used by the spec's worked examples -/

/-- Sample project "Website Redesign". -/
def websiteRedesign : Project :=
  { name := "Website Redesign", description := "d", due_date := "2025-12-31",
    tasks := [], created_at := "2025-01-01" }

/-- Sample project "Website Launch". -/
def websiteLaunch : Project :=
  { name := "Website Launch", description := "d", due_date := "2025-12-31",
    tasks := [], created_at := "2025-01-01" }

/-- Sample project "Mobile App". -/
def mobileApp : Project :=
  { name := "Mobile App", description := "d", due_date := "2025-12-31",
    tasks := [], created_at := "2025-01-01" }

/-- The NameResolver example state with projects
`["Website Redesign", "Website Launch", "Mobile App"]`. -/
def sampleState : AgentState :=
  { user_name := "user",
    projects := [websiteRedesign, websiteLaunch, mobileApp],
    team_members := [] }

/-- A state with no projects and no team members. -/
def emptyState : AgentState :=
  { user_name := "user", projects := [], team_members := [] }

/-! ## Helper lemmas about the list combinators -/

theorem modifyAt_length {α : Type} : ∀ (l : List α) (i : Nat) (f : α → α),
    (modifyAt l i f).length = l.length
  | [], _, _ => rfl
  | _ :: _, 0, _ => rfl
  | x :: xs, Nat.succ j, f => by
      simp only [modifyAt, List.length_cons, modifyAt_length xs j f]

theorem modifyAt_get_self {α : Type} : ∀ (l : List α) (i : Nat) (f : α → α),
    (modifyAt l i f)[i]? = l[i]?.map f
  | [], _, _ => by simp [modifyAt]
  | x :: xs, 0, f => by simp [modifyAt]
  | x :: xs, Nat.succ j, f => by
      simpa [modifyAt] using modifyAt_get_self xs j f

theorem modifyAt_get_ne {α : Type} : ∀ (l : List α) (i j : Nat) (f : α → α),
    j ≠ i → (modifyAt l i f)[j]? = l[j]?
  | [], _, _, _, _ => by simp [modifyAt]
  | x :: xs, 0, 0, f, h => absurd rfl h
  | x :: xs, 0, Nat.succ j, f, _ => by simp [modifyAt]
  | x :: xs, Nat.succ i, 0, f, _ => by simp [modifyAt]
  | x :: xs, Nat.succ i, Nat.succ j, f, h => by
      have hji : j ≠ i := fun he => h (by rw [he])
      simpa [modifyAt] using modifyAt_get_ne xs i j f hji

theorem modifyAt_eq_take_drop {α : Type} : ∀ (l : List α) (i : Nat) (x : α) (f : α → α),
    l[i]? = some x → modifyAt l i f = l.take i ++ f x :: l.drop (i + 1)
  | [], i, x, f, h => by simp at h
  | y :: ys, 0, x, f, h => by
      simp at h
      simp [modifyAt, h]
  | y :: ys, Nat.succ j, x, f, h => by
      simp at h
      simp [modifyAt, modifyAt_eq_take_drop ys j x f h]

theorem eraseIdx_eq_take_drop {α : Type} : ∀ (l : List α) (i : Nat),
    l.eraseIdx i = l.take i ++ l.drop (i + 1)
  | [], _ => by simp [List.eraseIdx]
  | x :: xs, 0 => by simp [List.eraseIdx]
  | x :: xs, Nat.succ j => by
      simp [List.eraseIdx, eraseIdx_eq_take_drop xs j]

theorem eraseIdx_length {α : Type} : ∀ (l : List α) (i : Nat), i < l.length →
    (l.eraseIdx i).length = l.length - 1
  | [], i, h => by simp at h
  | x :: xs, 0, _ => by simp [List.eraseIdx]
  | x :: xs, Nat.succ j, h => by
      have hj : j < xs.length := by simpa using h
      have := eraseIdx_length xs j hj
      simp [List.eraseIdx, this]
      omega

theorem eraseIdx_get_lt {α : Type} : ∀ (l : List α) (i j : Nat), j < i →
    (l.eraseIdx i)[j]? = l[j]?
  | [], _, _, _ => by simp [List.eraseIdx]
  | x :: xs, 0, j, h => by omega
  | x :: xs, Nat.succ i, 0, _ => by simp [List.eraseIdx]
  | x :: xs, Nat.succ i, Nat.succ j, h => by
      simpa [List.eraseIdx] using eraseIdx_get_lt xs i j (Nat.lt_of_succ_lt_succ h)

theorem eraseIdx_get_ge {α : Type} : ∀ (l : List α) (i j : Nat), i ≤ j →
    (l.eraseIdx i)[j]? = l[j + 1]?
  | [], _, _, _ => by simp [List.eraseIdx]
  | x :: xs, 0, j, _ => by simp [List.eraseIdx]
  | x :: xs, Nat.succ i, Nat.succ j, h => by
      simpa [List.eraseIdx] using eraseIdx_get_ge xs i j (Nat.le_of_succ_le_succ h)

theorem findFirst_none {α : Type} (p : α → Bool) : ∀ (l : List α),
    findFirst p l = none → ∀ x ∈ l, p x = false
  | [], _, x, hx => by simp at hx
  | y :: ys, h, x, hx => by
      by_cases hp : p y
      · simp [findFirst, hp] at h
      · rcases List.mem_cons.mp hx with rfl | hmem
        · exact Bool.eq_false_iff.mpr hp
        · have h2 : findFirst p ys = none := by simpa [findFirst, hp] using h
          exact findFirst_none p ys h2 x hmem

theorem findFirst_some_split {α : Type} (p : α → Bool) : ∀ (l : List α) (x : α),
    findFirst p l = some x →
      ∃ i, l[i]? = some x ∧ p x = true ∧
        (∀ j y, j < i → l[j]? = some y → p y = false) ∧
        ∀ f : α → α, updateFirst p f l = l.take i ++ f x :: l.drop (i + 1)
  | [], x, h => by simp [findFirst] at h
  | y :: ys, x, h => by
      by_cases hp : p y
      · have hxy : y = x := by simpa [findFirst, hp] using h
        subst hxy
        refine ⟨0, by simp, hp, ?_, ?_⟩
        · intro j z hj _
          exact absurd hj (Nat.not_lt_zero j)
        · intro f
          simp [updateFirst, hp]
      · have h2 : findFirst p ys = some x := by simpa [findFirst, hp] using h
        obtain ⟨i, hget, hpx, hbefore, hupd⟩ := findFirst_some_split p ys x h2
        refine ⟨i + 1, by simpa using hget, hpx, ?_, ?_⟩
        · intro j z hj hz
          cases j with
          | zero =>
            simp at hz
            exact hz ▸ Bool.eq_false_iff.mpr hp
          | succ j' =>
            exact hbefore j' z (Nat.lt_of_succ_lt_succ hj) (by simpa using hz)
        · intro f
          simp [updateFirst, hp, hupd f]

/-! ## Lemmas about match collection and name resolution -/

theorem collectMatches_mem {α : Type} (getName : α → String) (q : String) :
    ∀ (l : List α) (i0 k : Nat) (x : α),
      (k, x) ∈ collectMatches getName q l i0 ↔
        ∃ j, l[j]? = some x ∧ k = i0 + j + 1 ∧ nameMatches q (getName x) = true
  | [], i0, k, x => by simp [collectMatches]
  | y :: ys, i0, k, x => by
      by_cases hm : nameMatches q (getName y)
      · simp only [collectMatches, hm, if_pos, List.mem_cons, Prod.mk.injEq,
          collectMatches_mem getName q ys (i0 + 1) k x]
        constructor
        · rintro (⟨rfl, rfl⟩ | ⟨j, hj, rfl, hx⟩)
          · exact ⟨0, by simp, by omega, hm⟩
          · exact ⟨j + 1, by simpa using hj, by omega, hx⟩
        · rintro ⟨j, hj, rfl, hx⟩
          cases j with
          | zero =>
            simp at hj
            exact Or.inl ⟨by omega, hj.symm⟩
          | succ j' =>
            exact Or.inr ⟨j', by simpa using hj, by omega, hx⟩
      · simp only [collectMatches, hm, if_neg, Bool.false_eq_true, not_false_iff,
          collectMatches_mem getName q ys (i0 + 1) k x]
        constructor
        · rintro ⟨j, hj, rfl, hx⟩
          exact ⟨j + 1, by simpa using hj, by omega, hx⟩
        · rintro ⟨j, hj, rfl, hx⟩
          cases j with
          | zero =>
            simp at hj
            subst hj
            exact absurd hx hm
          | succ j' =>
            exact ⟨j', by simpa using hj, by omega, hx⟩

theorem findByName_nil_matches {α : Type} (getName : α → String)
    (collection : List α) (query : String)
    (h : collectMatches getName query collection 0 = []) :
    findByName getName collection query = .not_found := by
  simp [findByName, h]

theorem findByName_one_match {α : Type} (getName : α → String)
    (collection : List α) (query : String) (k : Nat) (x : α)
    (h : collectMatches getName query collection 0 = [(k, x)]) :
    findByName getName collection query = .found k x := by
  simp [findByName, h]

theorem findByName_many_matches {α : Type} (getName : α → String)
    (collection : List α) (query : String)
    (h : 2 ≤ (collectMatches getName query collection 0).length) :
    findByName getName collection query =
      .multiple_matches (collectMatches getName query collection 0) := by
  unfold findByName
  cases hc : collectMatches getName query collection 0 with
  | nil => rw [hc] at h; simp at h
  | cons a t =>
    cases t with
    | nil => rw [hc] at h; simp at h
    | cons b t2 => rfl

theorem containsAux_nil : ∀ hay : List Char, containsAux [] hay = true
  | [] => rfl
  | _ :: cs => by simp [containsAux, startsWithList, containsAux_nil cs]

theorem nameMatches_empty_query (n : String) : nameMatches "" n = true := by
  unfold nameMatches strContainsB
  exact containsAux_nil _

/-- Every element of the collection paired with its 1-based index, in order:
what the match loop collects when every item matches. -/
def indexedFrom {α : Type} : List α → Nat → List (Nat × α)
  | [], _ => []
  | x :: xs, i => (i + 1, x) :: indexedFrom xs (i + 1)

theorem collectMatches_empty_query {α : Type} (getName : α → String) :
    ∀ (l : List α) (i0 : Nat), collectMatches getName "" l i0 = indexedFrom l i0
  | [], _ => rfl
  | x :: xs, i0 => by
      simp [collectMatches, indexedFrom, nameMatches_empty_query,
        collectMatches_empty_query getName xs (i0 + 1)]

/-! ## Claim C1 -/

/-- C1: both name-resolution operations lower-case the query and test
substring containment against each lower-cased item name in collection
order, collecting 1-based indices; zero matches give `not_found`, exactly
one gives `found` with its index and item, several give `multiple_matches`
with all matching pairs in order.  In particular, on the projects
`["Website Redesign", "Website Launch", "Mobile App"]`, query `"web"`
yields `multiple_matches` at indices 1 and 2, `"mobile"` is `found` at
index 3, and `"zzz"` is `not_found`. -/
theorem c1_name_resolution :
    (∀ (s : AgentState) (q : String),
      (∀ k m, (k, m) ∈ collectMatches TeamMember.name q s.team_members 0 ↔
        ∃ j, s.team_members[j]? = some m ∧ k = j + 1 ∧
          strContainsB (lowerString m.name) (lowerString q) = true) ∧
      (collectMatches TeamMember.name q s.team_members 0 = [] →
        find_team_member_by_name s q = .not_found) ∧
      (∀ k m, collectMatches TeamMember.name q s.team_members 0 = [(k, m)] →
        find_team_member_by_name s q = .found k m) ∧
      (2 ≤ (collectMatches TeamMember.name q s.team_members 0).length →
        find_team_member_by_name s q =
          .multiple_matches (collectMatches TeamMember.name q s.team_members 0))) ∧
    (∀ (s : AgentState) (q : String),
      (∀ k p, (k, p) ∈ collectMatches Project.name q s.projects 0 ↔
        ∃ j, s.projects[j]? = some p ∧ k = j + 1 ∧
          strContainsB (lowerString p.name) (lowerString q) = true) ∧
      (collectMatches Project.name q s.projects 0 = [] →
        find_project_by_name s q = .not_found) ∧
      (∀ k p, collectMatches Project.name q s.projects 0 = [(k, p)] →
        find_project_by_name s q = .found k p) ∧
      (2 ≤ (collectMatches Project.name q s.projects 0).length →
        find_project_by_name s q =
          .multiple_matches (collectMatches Project.name q s.projects 0))) ∧
    find_project_by_name sampleState "web" =
      .multiple_matches [(1, websiteRedesign), (2, websiteLaunch)] ∧
    find_project_by_name sampleState "mobile" = .found 3 mobileApp ∧
    find_project_by_name sampleState "zzz" = .not_found := by
  refine ⟨fun s q => ⟨fun k m => ?_, ?_, fun k m => ?_, ?_⟩,
    fun s q => ⟨fun k p => ?_, ?_, fun k p => ?_, ?_⟩, by decide, by decide, by decide⟩
  · simpa [nameMatches] using
      collectMatches_mem TeamMember.name q s.team_members 0 k m
  · exact findByName_nil_matches _ _ _
  · exact findByName_one_match _ _ _ k m
  · exact findByName_many_matches _ _ _
  · simpa [nameMatches] using
      collectMatches_mem Project.name q s.projects 0 k p
  · exact findByName_nil_matches _ _ _
  · exact findByName_one_match _ _ _ k p
  · exact findByName_many_matches _ _ _

/-- Witness for C1: the `found` branch applied to the sample state and the
concrete query `"mobile"`, whose match list is the singleton `[(3, Mobile App)]`. -/
theorem c1_name_resolution_witness :
    find_project_by_name sampleState "mobile" = .found 3 mobileApp :=
  (c1_name_resolution.2.1 sampleState "mobile").2.2.1 3 mobileApp (by decide)

/-! ## Claim C9 -/

/-- C9: the empty query matches every item (empty-substring containment is
always true), so on a non-empty collection the find operations never return
`not_found`: one element gives `found` at index 1, two or more give
`multiple_matches` listing every element with its 1-based index. -/
theorem c9_empty_query_matches_all :
    (∀ n : String, nameMatches "" n = true) ∧
    ∀ s : AgentState,
      (s.team_members ≠ [] → find_team_member_by_name s "" ≠ .not_found) ∧
      (∀ m, s.team_members = [m] → find_team_member_by_name s "" = .found 1 m) ∧
      (2 ≤ s.team_members.length →
        find_team_member_by_name s "" =
          .multiple_matches (indexedFrom s.team_members 0)) ∧
      (s.projects ≠ [] → find_project_by_name s "" ≠ .not_found) ∧
      (∀ p, s.projects = [p] → find_project_by_name s "" = .found 1 p) ∧
      (2 ≤ s.projects.length →
        find_project_by_name s "" =
          .multiple_matches (indexedFrom s.projects 0)) := by
  have key : ∀ {α : Type} (getName : α → String) (l : List α),
      (l ≠ [] → findByName getName l "" ≠ .not_found) ∧
      (∀ x, l = [x] → findByName getName l "" = .found 1 x) ∧
      (2 ≤ l.length → findByName getName l "" = .multiple_matches (indexedFrom l 0)) := by
    intro α getName l
    refine ⟨?_, ?_, ?_⟩
    · intro hne
      cases l with
      | nil => exact absurd rfl hne
      | cons a t =>
        unfold findByName
        rw [collectMatches_empty_query]
        cases t with
        | nil => simp [indexedFrom]
        | cons b t2 => simp [indexedFrom]
    · rintro x rfl
      unfold findByName
      rw [collectMatches_empty_query]
      simp [indexedFrom]
    · intro hlen
      cases l with
      | nil => simp at hlen
      | cons a t =>
        cases t with
        | nil => simp at hlen
        | cons b t2 =>
          unfold findByName
          rw [collectMatches_empty_query]
          simp [indexedFrom]
  refine ⟨nameMatches_empty_query, fun s => ?_⟩
  obtain ⟨h1, h2, h3⟩ := key TeamMember.name s.team_members
  obtain ⟨h4, h5, h6⟩ := key Project.name s.projects
  exact ⟨h1, h2, h3, h4, h5, h6⟩

/-- Witness for C9: on the three-project sample state, the empty query
returns every project. -/
theorem c9_empty_query_matches_all_witness :
    find_project_by_name sampleState "" =
      .multiple_matches [(1, websiteRedesign), (2, websiteLaunch), (3, mobileApp)] := by
  have h := (c9_empty_query_matches_all.2 sampleState).2.2.2.2.2 (by decide)
  simpa [sampleState, indexedFrom] using h

/-- Indexing at `i` into `l.take i ++ x :: r` yields `x` when `i < l.length`. -/
theorem get_take_cons {α : Type} (l : List α) (i : Nat) (x : α) (r : List α)
    (h : i < l.length) : (l.take i ++ x :: r)[i]? = some x := by
  have hlen : (l.take i).length = i := by
    simp [List.length_take, Nat.min_eq_left (Nat.le_of_lt h)]
  rw [List.getElem?_append_right (Nat.le_of_eq hlen)]
  simp [hlen]

/-- In-range behaviour of `add_task`: the new task is appended to the tasks
of project `i - 1` and the result reports that project's name. -/
theorem add_task_in_range (s : AgentState) (i : Int) (nm : String)
    (a d dd pr : Option String) (today : String)
    (h1 : 1 ≤ i) (h2 : i ≤ (s.projects.length : Int)) :
    ∃ p, s.projects[(i - 1).toNat]? = some p ∧
      add_task s i nm a d dd pr today =
        ⟨.ok nm p.name,
         { s with projects := s.projects.take (i - 1).toNat ++
             { p with tasks := p.tasks ++ [mkTask nm a d dd pr today] } ::
             s.projects.drop ((i - 1).toNat + 1) }, true⟩ := by
  have hlt : (i - 1).toNat < s.projects.length := by omega
  have hget : s.projects[(i - 1).toNat]? = some (s.projects.get ⟨(i - 1).toNat, hlt⟩) := by
    simp [List.getElem?_eq_getElem hlt]
  refine ⟨s.projects.get ⟨(i - 1).toNat, hlt⟩, hget, ?_⟩
  have hcond : ¬(i - 1 < 0 ∨ (s.projects.length : Int) ≤ i - 1) := by omega
  simp only [add_task, if_neg hcond]
  rw [modifyAt_eq_take_drop _ _ _ _ hget]
  congr 1
  unfold projectNameAt
  rw [get_take_cons _ _ _ _ hlt]

/-! ## Claim C2 -/

/-- C2: every index-taking operation (`add_task`, `update_team_member`,
`delete_team_member`, `delete_project`) operates on internal element
`i - 1` when `1 ≤ i ≤ count` of the addressed collection, and when `i < 1`
or `i > count` it returns an index-out-of-range error, leaves the state
unchanged, and makes no persistence call. -/
theorem c2_index_bounds (s : AgentState) (i : Int) :
    ((1 ≤ i ∧ i ≤ (s.projects.length : Int)) →
      ∀ nm a d dd pr today, ∃ p, s.projects[(i - 1).toNat]? = some p ∧
        add_task s i nm a d dd pr today =
          ⟨.ok nm p.name,
           { s with projects := s.projects.take (i - 1).toNat ++
               { p with tasks := p.tasks ++ [mkTask nm a d dd pr today] } ::
               s.projects.drop ((i - 1).toNat + 1) }, true⟩) ∧
    (¬(1 ≤ i ∧ i ≤ (s.projects.length : Int)) →
      ∀ nm a d dd pr today, add_task s i nm a d dd pr today =
        ⟨.invalid_index i s.projects.length, s, false⟩) ∧
    ((1 ≤ i ∧ i ≤ (s.team_members.length : Int)) →
      ∀ nm rl em, ∃ m, s.team_members[(i - 1).toNat]? = some m ∧
        update_team_member s i nm rl em =
          ⟨.ok (updMember m nm rl em).name,
           { s with team_members := s.team_members.take (i - 1).toNat ++
               updMember m nm rl em ::
               s.team_members.drop ((i - 1).toNat + 1) }, true⟩) ∧
    (¬(1 ≤ i ∧ i ≤ (s.team_members.length : Int)) →
      ∀ nm rl em, update_team_member s i nm rl em =
        ⟨.invalid_index i s.team_members.length, s, false⟩) ∧
    ((1 ≤ i ∧ i ≤ (s.team_members.length : Int)) →
      ∃ m, s.team_members[(i - 1).toNat]? = some m ∧
        delete_team_member s i =
          ⟨.ok m.name,
           { s with team_members := s.team_members.take (i - 1).toNat ++
               s.team_members.drop ((i - 1).toNat + 1) }, true⟩) ∧
    (¬(1 ≤ i ∧ i ≤ (s.team_members.length : Int)) →
      delete_team_member s i = ⟨.invalid_index i s.team_members.length, s, false⟩) ∧
    ((1 ≤ i ∧ i ≤ (s.projects.length : Int)) →
      ∃ p, s.projects[(i - 1).toNat]? = some p ∧
        delete_project s i =
          ⟨.ok p.name,
           { s with projects := s.projects.take (i - 1).toNat ++
               s.projects.drop ((i - 1).toNat + 1) }, true⟩) ∧
    (¬(1 ≤ i ∧ i ≤ (s.projects.length : Int)) →
      delete_project s i = ⟨.invalid_index i s.projects.length, s, false⟩) := by
  refine ⟨?_, ?_, ?_, ?_, ?_, ?_, ?_, ?_⟩
  · rintro ⟨h1, h2⟩ nm a d dd pr today
    exact add_task_in_range s i nm a d dd pr today h1 h2
  · intro h nm a d dd pr today
    have hcond : i - 1 < 0 ∨ (s.projects.length : Int) ≤ i - 1 := by omega
    simp only [add_task, if_pos hcond]
  · rintro ⟨h1, h2⟩ nm rl em
    have hlt : (i - 1).toNat < s.team_members.length := by omega
    have hget : s.team_members[(i - 1).toNat]? =
        some (s.team_members.get ⟨(i - 1).toNat, hlt⟩) := by
      simp [List.getElem?_eq_getElem hlt]
    refine ⟨s.team_members.get ⟨(i - 1).toNat, hlt⟩, hget, ?_⟩
    have hcond : ¬(i - 1 < 0 ∨ (s.team_members.length : Int) ≤ i - 1) := by omega
    simp only [update_team_member, if_neg hcond]
    rw [modifyAt_eq_take_drop _ _ _ _ hget]
    congr 1
    unfold memberNameAt
    rw [get_take_cons _ _ _ _ hlt]
  · intro h nm rl em
    have hcond : i - 1 < 0 ∨ (s.team_members.length : Int) ≤ i - 1 := by omega
    simp only [update_team_member, if_pos hcond]
  · rintro ⟨h1, h2⟩
    have hlt : (i - 1).toNat < s.team_members.length := by omega
    have hget : s.team_members[(i - 1).toNat]? =
        some (s.team_members.get ⟨(i - 1).toNat, hlt⟩) := by
      simp [List.getElem?_eq_getElem hlt]
    refine ⟨s.team_members.get ⟨(i - 1).toNat, hlt⟩, hget, ?_⟩
    have hcond : ¬(i - 1 < 0 ∨ (s.team_members.length : Int) ≤ i - 1) := by omega
    simp only [delete_team_member, if_neg hcond]
    rw [eraseIdx_eq_take_drop]
    congr 1
    unfold memberNameAt
    rw [hget]
  · intro h
    have hcond : i - 1 < 0 ∨ (s.team_members.length : Int) ≤ i - 1 := by omega
    simp only [delete_team_member, if_pos hcond]
  · rintro ⟨h1, h2⟩
    have hlt : (i - 1).toNat < s.projects.length := by omega
    have hget : s.projects[(i - 1).toNat]? = some (s.projects.get ⟨(i - 1).toNat, hlt⟩) := by
      simp [List.getElem?_eq_getElem hlt]
    refine ⟨s.projects.get ⟨(i - 1).toNat, hlt⟩, hget, ?_⟩
    have hcond : ¬(i - 1 < 0 ∨ (s.projects.length : Int) ≤ i - 1) := by omega
    simp only [delete_project, if_pos, if_neg hcond]
    rw [eraseIdx_eq_take_drop]
    congr 1
    unfold projectNameAt
    rw [hget]
  · intro h
    have hcond : i - 1 < 0 ∨ (s.projects.length : Int) ≤ i - 1 := by omega
    simp only [delete_project, if_pos hcond]

/-- Witness for C2: on the three-project sample state, index 5 is rejected
by `add_task` with the valid range, and index 2 appends the task to the
second project. -/
theorem c2_index_bounds_witness :
    add_task sampleState 5 "T" none none none none "2025-06-01" =
      ⟨.invalid_index 5 3, sampleState, false⟩ ∧
    add_task sampleState 2 "T" none none none none "2025-06-01" =
      ⟨.ok "T" "Website Launch",
       { sampleState with projects := [websiteRedesign,
           { websiteLaunch with tasks := [mkTask "T" none none none none "2025-06-01"] },
           mobileApp] }, true⟩ := by
  constructor
  · exact (c2_index_bounds sampleState 5).2.1 (by decide) "T" none none none none "2025-06-01"
  · obtain ⟨p, hp, heq⟩ :=
      (c2_index_bounds sampleState 2).1 (by decide) "T" none none none none "2025-06-01"
    have hpv : p = websiteLaunch := by
      have : sampleState.projects[(2 - 1 : Int).toNat]? = some websiteLaunch := by decide
      rw [this] at hp
      exact (Option.some_injective _ hp).symm
    subst hpv
    simpa [sampleState, websiteRedesign, websiteLaunch, mobileApp] using heq

/-! ## Claim C8 -/

/-- Sample team member "Alice". -/
def alice : TeamMember :=
  { name := "Alice", role := "Engineer", email := "alice@company.com",
    created_at := "2025-01-01" }

/-- Sample team member "Bob". -/
def bob : TeamMember :=
  { name := "Bob", role := "Designer", email := "bob@company.com",
    created_at := "2025-01-01" }

/-- A state with two team members and no projects. -/
def teamState : AgentState :=
  { user_name := "user", projects := [], team_members := [alice, bob] }

/-- C8: for a valid 1-based index `i`, `update_team_member` overwrites only
the provided (non-`None`) fields of member `i - 1`, leaving absent fields,
every other member, and the rest of the state unchanged; and
`delete_team_member` removes exactly member `i - 1`, shifting every later
member down by one (no tombstone), leaving the rest of the state unchanged. -/
theorem c8_member_update_delete_frame (s : AgentState) (i : Int)
    (h1 : 1 ≤ i) (h2 : i ≤ (s.team_members.length : Int)) :
    (∀ nm rl em, ∃ m, s.team_members[(i - 1).toNat]? = some m ∧
      (update_team_member s i nm rl em).state.team_members.length =
        s.team_members.length ∧
      (update_team_member s i nm rl em).state.team_members[(i - 1).toNat]? =
        some { m with name := nm.getD m.name, role := rl.getD m.role,
                      email := em.getD m.email } ∧
      (∀ j, j ≠ (i - 1).toNat →
        (update_team_member s i nm rl em).state.team_members[j]? =
          s.team_members[j]?) ∧
      (update_team_member s i nm rl em).state.projects = s.projects ∧
      (update_team_member s i nm rl em).state.user_name = s.user_name) ∧
    ((delete_team_member s i).state.team_members.length =
        s.team_members.length - 1 ∧
      (∀ j, j < (i - 1).toNat →
        (delete_team_member s i).state.team_members[j]? = s.team_members[j]?) ∧
      (∀ j, (i - 1).toNat ≤ j →
        (delete_team_member s i).state.team_members[j]? =
          s.team_members[j + 1]?) ∧
      (delete_team_member s i).state.projects = s.projects ∧
      (delete_team_member s i).state.user_name = s.user_name) := by
  have hlt : (i - 1).toNat < s.team_members.length := by omega
  have hcond : ¬(i - 1 < 0 ∨ (s.team_members.length : Int) ≤ i - 1) := by omega
  constructor
  · intro nm rl em
    have hget : s.team_members[(i - 1).toNat]? =
        some (s.team_members.get ⟨(i - 1).toNat, hlt⟩) := by
      simp [List.getElem?_eq_getElem hlt]
    refine ⟨s.team_members.get ⟨(i - 1).toNat, hlt⟩, hget, ?_⟩
    have hred : (update_team_member s i nm rl em).state =
        { s with team_members :=
            modifyAt s.team_members (i - 1).toNat (fun m => updMember m nm rl em) } := by
      simp only [update_team_member, if_neg hcond]
    rw [hred]
    refine ⟨modifyAt_length _ _ _, ?_, fun j hj => modifyAt_get_ne _ _ _ _ hj, rfl, rfl⟩
    rw [modifyAt_get_self, hget]
    rfl
  · have hred : (delete_team_member s i).state =
        { s with team_members := s.team_members.eraseIdx (i - 1).toNat } := by
      simp only [delete_team_member, if_neg hcond]
    rw [hred]
    exact ⟨eraseIdx_length _ _ hlt, fun j hj => eraseIdx_get_lt _ _ _ hj,
      fun j hj => eraseIdx_get_ge _ _ _ hj, rfl, rfl⟩

/-- Witness for C8: updating member 2 of the two-member team with only a
new role changes exactly that field, and deleting member 1 shifts member 2
down to index 0. -/
theorem c8_member_update_delete_frame_witness :
    (update_team_member teamState 2 none (some "Manager") none).state.team_members[1]? =
      some { bob with role := "Manager" } ∧
    (delete_team_member teamState 1).state.team_members[0]? =
      teamState.team_members[1]? := by
  constructor
  · obtain ⟨m, hm, _, hat, _⟩ :=
      (c8_member_update_delete_frame teamState 2 (by decide) (by decide)).1
        none (some "Manager") none
    have hmb : m = bob := by
      have hb : teamState.team_members[((2 : Int) - 1).toNat]? = some bob := by decide
      rw [hb] at hm
      exact (Option.some_injective _ hm.symm)
    subst hmb
    simpa using hat
  · exact (c8_member_update_delete_frame teamState 1 (by decide) (by decide)).2.2.2.1
      0 (by decide)

/-! ## Claim C5 -/

/-- C5: `update_task_status` selects the first project in collection order
whose name contains `project_name` case-insensitively, then the first task
in it whose name contains `task_name`; if either lookup fails it returns a
not-found error without mutating state or persisting; otherwise it
overwrites that task's `status` with the lower-cased `new_status`, persists,
and reports the old and the new status value. -/
theorem c5_update_task_status (s : AgentState) (pn tn ns : String) :
    (findFirst (fun p => nameMatches pn p.name) s.projects = none →
      update_task_status s pn tn ns = ⟨.project_not_found pn, s, false⟩) ∧
    (∀ p, findFirst (fun p => nameMatches pn p.name) s.projects = some p →
      findFirst (fun t => nameMatches tn t.name) p.tasks = none →
      update_task_status s pn tn ns = ⟨.task_not_found tn p.name, s, false⟩) ∧
    (∀ p t, findFirst (fun p => nameMatches pn p.name) s.projects = some p →
      findFirst (fun t => nameMatches tn t.name) p.tasks = some t →
      ∃ pi ti,
        s.projects[pi]? = some p ∧ nameMatches pn p.name = true ∧
        (∀ j q, j < pi → s.projects[j]? = some q → nameMatches pn q.name = false) ∧
        p.tasks[ti]? = some t ∧ nameMatches tn t.name = true ∧
        (∀ j u, j < ti → p.tasks[j]? = some u → nameMatches tn u.name = false) ∧
        update_task_status s pn tn ns =
          ⟨.success p.name t.name t.status ns,
           { s with projects := s.projects.take pi ++
               { p with tasks := p.tasks.take ti ++
                   { t with status := lowerString ns } :: p.tasks.drop (ti + 1) } ::
               s.projects.drop (pi + 1) }, true⟩) := by
  refine ⟨?_, ?_, ?_⟩
  · intro hp
    simp only [update_task_status, hp]
  · intro p hp ht
    simp only [update_task_status, hp, ht]
  · intro p t hp ht
    obtain ⟨pi, hpi, hppred, hpbefore, hpupd⟩ :=
      findFirst_some_split (fun p => nameMatches pn p.name) s.projects p hp
    obtain ⟨ti, hti, htpred, htbefore, htupd⟩ :=
      findFirst_some_split (fun t => nameMatches tn t.name) p.tasks t ht
    refine ⟨pi, ti, hpi, hppred, hpbefore, hti, htpred, htbefore, ?_⟩
    simp only [update_task_status, hp, ht]
    rw [hpupd]
    congr 2
    rw [htupd]

/-- Witness for C5: no project of the sample state matches the query
`"zzz"`, so `update_task_status` reports the project as not found and
leaves the state untouched without persisting. -/
theorem c5_update_task_status_witness :
    update_task_status sampleState "zzz" "t" "done" =
      ⟨.project_not_found "zzz", sampleState, false⟩ :=
  (c5_update_task_status sampleState "zzz" "t" "done").1 (by decide)

/-! ## Lemmas about filtered task counts -/

theorem filter_length_split {α : Type} (p : α → Bool) : ∀ l : List α,
    (l.filter p).length + (l.filter (fun a => !p a)).length = l.length
  | [] => rfl
  | x :: xs => by
      by_cases h : p x <;>
        simp [List.filter_cons, h, ← filter_length_split p xs] <;> omega

theorem sum_map_add {α : Type} (f g : α → Nat) : ∀ l : List α,
    (l.map (fun x => f x + g x)).sum = (l.map f).sum + (l.map g).sum
  | [] => rfl
  | x :: xs => by
      simp [sum_map_add f g xs]
      omega

theorem sum_match_lengths_zero (pr : Task → Bool) : ∀ l : List Project,
    ((l.map (fun p => (p.tasks.filter pr).length)).sum = 0 ↔
      ∀ p ∈ l, ∀ t ∈ p.tasks, pr t = false)
  | [] => by simp
  | p :: l => by
      simp only [List.map_cons, List.sum_cons, Nat.add_eq_zero,
        List.length_eq_zero, List.filter_eq_nil_iff, List.mem_cons,
        sum_match_lengths_zero pr l]
      constructor
      · rintro ⟨h1, h2⟩ q hq t htq
        rcases hq with rfl | hq
        · exact Bool.eq_false_iff.mpr (h1 t htq)
        · exact h2 q hq t htq
      · intro h
        refine ⟨fun t ht => Bool.eq_false_iff.mp (h p (Or.inl rfl) t ht),
          fun q hq t ht => h q (Or.inr hq) t ht⟩

theorem projects_filter_id (pr : Task → Bool) : ∀ l : List Project,
    (∀ p ∈ l, ∀ t ∈ p.tasks, pr t = false) →
      l.map (fun p => { p with tasks := p.tasks.filter (fun t => !pr t) }) = l
  | [], _ => rfl
  | p :: l, h => by
      have h1 : p.tasks.filter (fun t => !pr t) = p.tasks := by
        apply List.filter_eq_self.mpr
        intro t ht
        simp [h p (List.mem_cons_self p l) t ht]
      simp only [List.map_cons, h1]
      rw [projects_filter_id pr l (fun q hq t ht => h q (List.mem_cons_of_mem p hq) t ht)]

/-! ## Claims C3 and C4 -/

/-- Sample task "Design homepage". -/
def designHomepage : Task :=
  { name := "Design homepage", description := "d", assigned_to := "Unassigned",
    due_date := "2025-12-31", priority := "medium", status := "pending",
    created_at := "2025-01-01" }

/-- Sample task "Design logo". -/
def designLogo : Task :=
  { name := "Design logo", description := "d", assigned_to := "Unassigned",
    due_date := "2025-12-31", priority := "medium", status := "pending",
    created_at := "2025-01-01" }

/-- Sample task "Write tests". -/
def writeTests : Task :=
  { name := "Write tests", description := "d", assigned_to := "Unassigned",
    due_date := "2025-12-31", priority := "medium", status := "pending",
    created_at := "2025-01-01" }

/-- Sample project "Website" with the two Design tasks. -/
def projWebsite : Project :=
  { name := "Website", description := "d", due_date := "2025-12-31",
    tasks := [designHomepage, designLogo], created_at := "2025-01-01" }

/-- Sample project "API" with one non-matching task. -/
def projApi : Project :=
  { name := "API", description := "d", due_date := "2025-12-31",
    tasks := [writeTests], created_at := "2025-01-01" }

/-- The two-project state of the delete_tasks_by_name worked example. -/
def twoProjectState : AgentState :=
  { user_name := "user", projects := [projWebsite, projApi], team_members := [] }

/-- Removing the matching tasks loses exactly as many tasks in total as
there were matches. -/
theorem sum_len_filter (pr : Task → Bool) : ∀ l : List Project,
    (l.map (fun p => (p.tasks.filter pr).length)).sum +
      ((l.map (fun p => { p with tasks := p.tasks.filter (fun t => !pr t) })).map
        (fun p => p.tasks.length)).sum =
      (l.map (fun p => p.tasks.length)).sum
  | [] => rfl
  | p :: l => by
      simp only [List.map_cons, List.sum_cons]
      have h1 := sum_len_filter pr l
      have h2 := filter_length_split pr p.tasks
      omega

/-- Counterexample to C3 as stated: on a state with no projects,
`delete_tasks_by_name` removes nothing but reports the status `"error"`
(`no_projects`), not `not_found` as the claim requires for every state. -/
theorem c3_counterexample :
    (delete_tasks_by_name emptyState "x").result = .no_projects ∧
    DeleteTasksResult.no_projects ≠ DeleteTasksResult.not_found "x" := by
  exact ⟨rfl, by decide⟩

/-- C3 (amended: on every state whose projects collection is non-empty —
the empty collection instead yields the `"error"` status):
`delete_tasks_by_name` removes from every project exactly the tasks whose
name contains the query case-insensitively, reports `deleted_count` equal
to the total number of tasks removed and `affected_projects` equal to the
names of exactly the projects that lost at least one task, and reports
`not_found` exactly when zero tasks are removed; on the spec's two-project
example, `"Design"` deletes both matching tasks and lists only the one
affected project. -/
theorem c3_delete_tasks_by_name :
    (∀ (s : AgentState) (q : String), s.projects ≠ [] →
      (delete_tasks_by_name s q).state.user_name = s.user_name ∧
      (delete_tasks_by_name s q).state.team_members = s.team_members ∧
      (delete_tasks_by_name s q).state.projects.length = s.projects.length ∧
      (∀ (j : Nat) (p : Project), s.projects[j]? = some p →
        (delete_tasks_by_name s q).state.projects[j]? =
          some { p with tasks := p.tasks.filter (fun t => !taskMatch q t) }) ∧
      ((delete_tasks_by_name s q).result = .not_found q ↔
        ∀ p ∈ s.projects, ∀ t ∈ p.tasks, taskMatch q t = false) ∧
      (¬(∀ p ∈ s.projects, ∀ t ∈ p.tasks, taskMatch q t = false) →
        ∃ n, (delete_tasks_by_name s q).result = .success q n
            ((s.projects.filter (fun p => p.tasks.any (taskMatch q))).map Project.name) ∧
          n + ((delete_tasks_by_name s q).state.projects.map
              (fun p => p.tasks.length)).sum =
            (s.projects.map (fun p => p.tasks.length)).sum)) ∧
    delete_tasks_by_name twoProjectState "Design" =
      ⟨.success "Design" 2 ["Website"],
       { user_name := "user",
         projects := [{ name := "Website", description := "d", due_date := "2025-12-31", tasks := [], created_at := "2025-01-01" }, projApi],
         team_members := [] }, true⟩ := by
  constructor
  · intro s q hne
    have hzero := sum_match_lengths_zero (taskMatch q) s.projects
    have hout : delete_tasks_by_name s q =
        if (s.projects.map (fun p => (p.tasks.filter (taskMatch q)).length)).sum = 0 then
          ⟨.not_found q,
           { s with projects := s.projects.map (fun p => { p with tasks := p.tasks.filter (fun t => !taskMatch q t) }) },
           true⟩
        else
          ⟨.success q
             ((s.projects.map (fun p => (p.tasks.filter (taskMatch q)).length)).sum)
             ((s.projects.filter (fun p => p.tasks.any (taskMatch q))).map Project.name),
           { s with projects := s.projects.map (fun p => { p with tasks := p.tasks.filter (fun t => !taskMatch q t) }) },
           true⟩ := by
      simp only [delete_tasks_by_name, if_neg hne]
    have hstate : (delete_tasks_by_name s q).state =
        { s with projects := s.projects.map (fun p => { p with tasks := p.tasks.filter (fun t => !taskMatch q t) }) } := by
      rw [hout]
      by_cases hz :
          (s.projects.map (fun p => (p.tasks.filter (taskMatch q)).length)).sum = 0
      · rw [if_pos hz]
      · rw [if_neg hz]
    refine ⟨by rw [hstate], by rw [hstate], by rw [hstate]; simp, ?_, ?_, ?_⟩
    · intro j p hj
      rw [hstate]
      simp [hj]
    · by_cases hz :
          (s.projects.map (fun p => (p.tasks.filter (taskMatch q)).length)).sum = 0
      · rw [hout, if_pos hz]
        simp only [true_iff]
        exact hzero.mp hz
      · rw [hout, if_neg hz]
        constructor
        · intro h
          exact absurd h (by simp)
        · intro hall
          exact absurd (hzero.mpr hall) hz
    · intro hcon
      have hz : ¬(s.projects.map (fun p => (p.tasks.filter (taskMatch q)).length)).sum = 0 :=
        fun h => hcon (hzero.mp h)
      refine ⟨(s.projects.map (fun p => (p.tasks.filter (taskMatch q)).length)).sum,
        by rw [hout, if_neg hz], ?_⟩
      rw [hstate]
      exact sum_len_filter (taskMatch q) s.projects
  · decide

/-- Witness for C3's amended theorem: on the two-project example state the
zero-match query `"zzz"` reports `not_found`. -/
theorem c3_delete_tasks_by_name_witness :
    (delete_tasks_by_name twoProjectState "zzz").result = .not_found "zzz" :=
  ((c3_delete_tasks_by_name.1 twoProjectState "zzz" (by decide)).2.2.2.2.1).mpr (by decide)

/-- Counterexample to C4 as stated: the empty-projects state (which in
particular contains no completed task) makes `remove_completed_tasks`
report the `"error"` status (`no_projects`), not `no_tasks` as the claim
requires for every state in which nothing is removed. -/
theorem c4_counterexample :
    emptyState.projects = [] ∧
    (remove_completed_tasks emptyState).result = .no_projects ∧
    RemoveCompletedResult.no_projects ≠ RemoveCompletedResult.no_tasks := by
  refine ⟨rfl, rfl, by decide⟩

/-- C4 (amended: on every state whose projects collection is non-empty —
the empty collection instead yields the `"error"` status):
`remove_completed_tasks` removes from every project exactly the tasks whose
`status` exactly string-equals `"completed"` (any other value, including
`"Completed"`, is kept), and whenever the state contains no completed task
it reports `no_tasks` and leaves the state unchanged. -/
theorem c4_remove_completed_tasks :
    (∀ t : Task, isCompleted t = true ↔ t.status = "completed") ∧
    (∀ t : Task, t.status = "Completed" → isCompleted t = false) ∧
    ∀ s : AgentState, s.projects ≠ [] →
      (remove_completed_tasks s).state.user_name = s.user_name ∧
      (remove_completed_tasks s).state.team_members = s.team_members ∧
      (remove_completed_tasks s).state.projects.length = s.projects.length ∧
      (∀ (j : Nat) (p : Project), s.projects[j]? = some p →
        (remove_completed_tasks s).state.projects[j]? =
          some { p with tasks := p.tasks.filter (fun t => !isCompleted t) }) ∧
      ((∀ p ∈ s.projects, ∀ t ∈ p.tasks, isCompleted t = false) →
        (remove_completed_tasks s).result = .no_tasks ∧
        (remove_completed_tasks s).state = s) := by
  refine ⟨fun t => by simp [isCompleted], fun t ht => by simp [isCompleted, ht], ?_⟩
  intro s hne
  have hzero := sum_match_lengths_zero isCompleted s.projects
  have hout : remove_completed_tasks s =
      if (s.projects.map (fun p => (p.tasks.filter isCompleted).length)).sum = 0 then
        ⟨.no_tasks,
         { s with projects := s.projects.map (fun p => { p with tasks := p.tasks.filter (fun t => !isCompleted t) }) },
         true⟩
      else
        ⟨.success ((s.projects.map (fun p => (p.tasks.filter isCompleted).length)).sum)
           ((s.projects.filter (fun p => p.tasks.any isCompleted)).map Project.name),
         { s with projects := s.projects.map (fun p => { p with tasks := p.tasks.filter (fun t => !isCompleted t) }) },
         true⟩ := by
    simp only [remove_completed_tasks, if_neg hne]
  have hstate : (remove_completed_tasks s).state =
      { s with projects := s.projects.map (fun p => { p with tasks := p.tasks.filter (fun t => !isCompleted t) }) } := by
    rw [hout]
    by_cases hz :
        (s.projects.map (fun p => (p.tasks.filter isCompleted).length)).sum = 0
    · rw [if_pos hz]
    · rw [if_neg hz]
  refine ⟨by rw [hstate], by rw [hstate], by rw [hstate]; simp, ?_, ?_⟩
  · intro j p hj
    rw [hstate]
    simp [hj]
  · intro hall
    have hz := hzero.mpr hall
    refine ⟨by rw [hout, if_pos hz], ?_⟩
    rw [hstate, projects_filter_id isCompleted s.projects hall]

/-- Witness for C4's amended theorem: a project whose only task has status
`"Completed"` (capital C) loses nothing, and the run reports `no_tasks`
with the state unchanged. -/
theorem c4_remove_completed_tasks_witness :
    (remove_completed_tasks
      { user_name := "user",
        projects := [{ name := "P", description := "d", due_date := "2025-12-31", tasks := [{ name := "T", description := "d", assigned_to := "a", due_date := "2025-12-31", priority := "medium", status := "Completed", created_at := "2025-01-01" }], created_at := "2025-01-01" }],
        team_members := [] }).result = .no_tasks :=
  ((c4_remove_completed_tasks.2.2 _ (by decide)).2.2.2.2 (by decide)).1

/-! ## Claim C10 -/

/-- C10: whenever the projects collection is non-empty,
`delete_tasks_by_name` and `remove_completed_tasks` invoke the
session-store write unconditionally — even a zero-match run persists the
value-unchanged state before reporting `not_found` / `no_tasks` — unlike
the other non-success paths (empty-projects error, index out of range,
date-validation error), which return without any persistence call. -/
theorem c10_unconditional_persist (s : AgentState) (q : String) :
    (s.projects ≠ [] →
      (delete_tasks_by_name s q).persisted = true ∧
      (remove_completed_tasks s).persisted = true ∧
      ((∀ p ∈ s.projects, ∀ t ∈ p.tasks, taskMatch q t = false) →
        (delete_tasks_by_name s q).state = s ∧
        (delete_tasks_by_name s q).result = .not_found q) ∧
      ((∀ p ∈ s.projects, ∀ t ∈ p.tasks, isCompleted t = false) →
        (remove_completed_tasks s).state = s ∧
        (remove_completed_tasks s).result = .no_tasks)) ∧
    (s.projects = [] →
      delete_tasks_by_name s q = ⟨.no_projects, s, false⟩ ∧
      remove_completed_tasks s = ⟨.no_projects, s, false⟩) ∧
    (∀ (i : Int) nm a d dd pr today, ¬(1 ≤ i ∧ i ≤ (s.projects.length : Int)) →
      (add_task s i nm a d dd pr today).persisted = false ∧
      (add_task s i nm a d dd pr today).state = s) ∧
    (∀ nm dsc ds today, ds ≠ "" → parseDateYMD ds = false →
      (add_project s nm dsc (some ds) today).persisted = false ∧
      (add_project s nm dsc (some ds) today).state = s) := by
  refine ⟨?_, ?_, ?_, ?_⟩
  · intro hne
    have hdel : (delete_tasks_by_name s q).persisted = true := by
      simp only [delete_tasks_by_name, if_neg hne]
      by_cases hz :
          (s.projects.map (fun p => (p.tasks.filter (taskMatch q)).length)).sum = 0
      · rw [if_pos hz]
      · rw [if_neg hz]
    have hrem : (remove_completed_tasks s).persisted = true := by
      simp only [remove_completed_tasks, if_neg hne]
      by_cases hz :
          (s.projects.map (fun p => (p.tasks.filter isCompleted).length)).sum = 0
      · rw [if_pos hz]
      · rw [if_neg hz]
    refine ⟨hdel, hrem, ?_, ?_⟩
    · intro hall
      have hz := (sum_match_lengths_zero (taskMatch q) s.projects).mpr hall
      constructor
      · have : (delete_tasks_by_name s q).state =
            { s with projects := s.projects.map (fun p => { p with tasks := p.tasks.filter (fun t => !taskMatch q t) }) } := by
          simp only [delete_tasks_by_name, if_neg hne]
          rw [if_pos hz]
        rw [this, projects_filter_id (taskMatch q) s.projects hall]
      · simp only [delete_tasks_by_name, if_neg hne]
        rw [if_pos hz]
    · intro hall
      have hz := (sum_match_lengths_zero isCompleted s.projects).mpr hall
      constructor
      · have : (remove_completed_tasks s).state =
            { s with projects := s.projects.map (fun p => { p with tasks := p.tasks.filter (fun t => !isCompleted t) }) } := by
          simp only [remove_completed_tasks, if_neg hne]
          rw [if_pos hz]
        rw [this, projects_filter_id isCompleted s.projects hall]
      · simp only [remove_completed_tasks, if_neg hne]
        rw [if_pos hz]
  · intro he
    exact ⟨by simp only [delete_tasks_by_name, if_pos he],
      by simp only [remove_completed_tasks, if_pos he]⟩
  · intro i nm a d dd pr today h
    have hcond : i - 1 < 0 ∨ (s.projects.length : Int) ≤ i - 1 := by omega
    simp only [add_task, if_pos hcond]
    constructor <;> trivial
  · intro nm dsc ds today hne hbad
    have hcond : (ds : String) ≠ "" ∧ parseDateYMD ds = false := ⟨hne, hbad⟩
    simp only [add_project, Option.getD_some, if_pos hcond]
    constructor <;> trivial

/-- Witness for C10: on the two-project sample state the zero-match query
`"zzz"` still reports a persistence call with the state unchanged, while
the empty-projects error path of `remove_completed_tasks` does not
persist. -/
theorem c10_unconditional_persist_witness :
    (delete_tasks_by_name twoProjectState "zzz").persisted = true ∧
    (delete_tasks_by_name twoProjectState "zzz").state = twoProjectState ∧
    (remove_completed_tasks emptyState).persisted = false := by
  refine ⟨((c10_unconditional_persist twoProjectState "zzz").1 (by decide)).1,
    (((c10_unconditional_persist twoProjectState "zzz").1 (by decide)).2.2.1 (by decide)).1,
    ?_⟩
  have h := ((c10_unconditional_persist emptyState "zzz").2.1 (by decide)).2
  rw [h]

/-! ## Claim C6 -/

/-- Counterexample to C6 as stated: the empty string does not parse as
YYYY-MM-DD, yet `add_project` with `due_date = ""` skips validation
(the code guards `strptime` behind truthiness, which is false for the
empty string), appends the project, and returns success. -/
theorem c6_counterexample :
    parseDateYMD "" = false ∧
    (add_project emptyState "P" none (some "") "2025-06-01").result = .ok "P" "" ∧
    (add_project emptyState "P" none (some "") "2025-06-01").state.projects.length =
      emptyState.projects.length + 1 := by
  decide

/-- C6 (amended: restricted to non-empty due_date strings, because the code
only validates a truthy due_date, so the empty string is appended
verbatim): for every non-empty due_date string that does not parse as
YYYY-MM-DD, `add_project` returns a validation error and leaves the state
unchanged; for every due_date that parses, is absent (defaulting to
2025-12-31), or is the empty string, it appends exactly one new project
with an empty tasks list to the end of the projects collection. -/
theorem c6_add_project_validation (s : AgentState) (nm : String)
    (d : Option String) (today : String) :
    (∀ ds, ds ≠ "" → parseDateYMD ds = false →
      add_project s nm d (some ds) today = ⟨.invalid_date ds, s, false⟩) ∧
    (∀ ds, parseDateYMD ds = true →
      add_project s nm d (some ds) today =
        ⟨.ok nm ds,
         { s with projects := s.projects ++ [{ name := nm, description := d.getD "No description provided", due_date := ds, tasks := [], created_at := today }] },
         true⟩) ∧
    (add_project s nm d none today =
      ⟨.ok nm "2025-12-31",
       { s with projects := s.projects ++ [{ name := nm, description := d.getD "No description provided", due_date := "2025-12-31", tasks := [], created_at := today }] },
       true⟩) ∧
    (add_project s nm d (some "") today =
      ⟨.ok nm "",
       { s with projects := s.projects ++ [{ name := nm, description := d.getD "No description provided", due_date := "", tasks := [], created_at := today }] },
       true⟩) := by
  refine ⟨?_, ?_, ?_, ?_⟩
  · intro ds hne hbad
    simp only [add_project, Option.getD_some, if_pos (And.intro hne hbad)]
  · intro ds hok
    have hcond : ¬(ds ≠ "" ∧ parseDateYMD ds = false) := by
      simp [hok]
    simp only [add_project, Option.getD_some, if_neg hcond]
  · have hcond : ¬(("2025-12-31" : String) ≠ "" ∧ parseDateYMD "2025-12-31" = false) := by
      decide
    simp only [add_project, Option.getD_none, if_neg hcond]
  · have hcond : ¬(("" : String) ≠ "" ∧ parseDateYMD "" = false) := by
      decide
    simp only [add_project, Option.getD_some, if_neg hcond]

/-- Witness for C6's amended theorem: the malformed date `"31-12-2025"` is
rejected with the state unchanged and no persistence call. -/
theorem c6_add_project_validation_witness :
    add_project emptyState "Q" none (some "31-12-2025") "2025-06-01" =
      ⟨.invalid_date "31-12-2025", emptyState, false⟩ :=
  (c6_add_project_validation emptyState "Q" none "2025-06-01").1 "31-12-2025"
    (by decide) (by decide)

/-! ## Claim C7 -/

theorem findByName_found_inv {α : Type} (getName : α → String) (l : List α)
    (q : String) (k : Nat) (x : α)
    (h : findByName getName l q = .found k x) :
    collectMatches getName q l 0 = [(k, x)] := by
  unfold findByName at h
  cases hc : collectMatches getName q l 0 with
  | nil =>
    rw [hc] at h
    simp at h
  | cons a t =>
    cases t with
    | nil =>
      rw [hc] at h
      simp only [FindResult.found.injEq] at h
      obtain ⟨h1, h2⟩ := h
      rw [← h1, ← h2]
    | cons b t2 =>
      rw [hc] at h
      simp at h

theorem sum_map_take_cons_drop {α : Type} (f : α → Nat) :
    ∀ (l : List α) (j : Nat) (x y : α), l[j]? = some x →
      ((l.take j ++ y :: l.drop (j + 1)).map f).sum + f x = (l.map f).sum + f y
  | [], j, x, y, h => by simp at h
  | a :: l, 0, x, y, h => by
      simp at h
      subst h
      simp [List.map_cons, List.sum_cons]
      omega
  | a :: l, Nat.succ j, x, y, h => by
      simp only [List.getElem?_cons_succ] at h
      have hrec := sum_map_take_cons_drop f l j x y h
      simp only [List.take_succ_cons, List.drop_succ_cons, List.cons_append,
        List.map_cons, List.sum_cons]
      omega

/-- C7: `add_task_by_project_name` resolves the project through the
tri-state name lookup: zero matches give an error without mutating or
persisting; several matches give an error enumerating every matching
project with its 1-based index, again without mutating, persisting, or
picking any match; a unique match delegates to `add_task` with the
resolved (always in-range) 1-based index, so exactly one task is appended. -/
theorem c7_add_task_by_project_name (s : AgentState) (pn tn : String)
    (a d dd pr : Option String) (today : String) :
    (find_project_by_name s pn = .not_found →
      add_task_by_project_name s pn tn a d dd pr today =
        ⟨.project_not_found pn, s, false⟩) ∧
    (∀ ms, find_project_by_name s pn = .multiple_matches ms →
      add_task_by_project_name s pn tn a d dd pr today =
        ⟨.project_ambiguous (ms.map (fun m => (m.1, m.2.name))), s, false⟩) ∧
    (∀ (k : Nat) (p : Project), find_project_by_name s pn = .found k p →
      add_task_by_project_name s pn tn a d dd pr today =
        add_task s (k : Int) tn a d dd pr today ∧
      1 ≤ (k : Int) ∧ (k : Int) ≤ (s.projects.length : Int) ∧
      s.projects[k - 1]? = some p ∧
      (add_task_by_project_name s pn tn a d dd pr today).result = .ok tn p.name ∧
      ((add_task_by_project_name s pn tn a d dd pr today).state.projects.map
          (fun p => p.tasks.length)).sum =
        (s.projects.map (fun p => p.tasks.length)).sum + 1) := by
  refine ⟨?_, ?_, ?_⟩
  · intro hf
    simp only [add_task_by_project_name, hf]
  · intro ms hf
    simp only [add_task_by_project_name, hf]
  · intro k p hf
    have hc := findByName_found_inv Project.name s.projects pn k p hf
    have hmem : (k, p) ∈ collectMatches Project.name pn s.projects 0 := by
      rw [hc]
      exact List.mem_singleton.mpr rfl
    obtain ⟨j, hj, hk, _⟩ :=
      (collectMatches_mem Project.name pn s.projects 0 k p).mp hmem
    have hjlt : j < s.projects.length := by
      by_contra hge
      rw [List.getElem?_eq_none (by omega)] at hj
      cases hj
    have h1 : 1 ≤ (k : Int) := by omega
    have h2 : (k : Int) ≤ (s.projects.length : Int) := by omega
    have hdeleg : add_task_by_project_name s pn tn a d dd pr today =
        add_task s (k : Int) tn a d dd pr today := by
      simp only [add_task_by_project_name, hf]
    obtain ⟨p2, hp2, hadd⟩ := add_task_in_range s (k : Int) tn a d dd pr today h1 h2
    have hjj : ((k : Int) - 1).toNat = j := by omega
    rw [hjj] at hp2 hadd
    have hp2p : p2 = p := by
      rw [hj] at hp2
      exact (Option.some_injective _ hp2).symm
    subst hp2p
    have hknat : k - 1 = j := by omega
    refine ⟨hdeleg, h1, h2, by rw [hknat]; exact hj, ?_, ?_⟩
    · rw [hdeleg, hadd]
    · rw [hdeleg, hadd]
      have hsum := sum_map_take_cons_drop (fun p => p.tasks.length) s.projects j p2
        { p2 with tasks := p2.tasks ++ [mkTask tn a d dd pr today] } hj
      simp only [List.length_append, List.length_cons, List.length_nil] at hsum
      simp only []
      omega

/-- Witness for C7: adding a task to the uniquely-matching project name
`"mobile"` of the sample state delegates to `add_task` at index 3. -/
theorem c7_add_task_by_project_name_witness :
    add_task_by_project_name sampleState "mobile" "T" none none none none "2025-06-01" =
      add_task sampleState 3 "T" none none none none "2025-06-01" :=
  ((c7_add_task_by_project_name sampleState "mobile" "T" none none none none
    "2025-06-01").2.2 3 mobileApp (by decide)).1

end PMA
